import Mathlib

/-!
# Verification of the JSDoc-suggestion action's core algorithms

A shallow embedding, in Lean, of the two algorithmic parts of
`scripts/suggest-jsdoc.cjs` — the diff-position locator
(`getDiffPositions`) and the AST-based function scanner
(`detectFunctions`) — together with the statistics/summary flow of
`processFile` and `main`.  External collaborators (the completion
endpoint, the code-hosting REST API, the file system) enter as
parameters; machine strings are `String`/`List Char`; JS objects used
as integer-keyed maps are lists of assignments read back from the
right (a later assignment overwrites an earlier one).
-/

namespace JsdocAction

/-! ## The diff walk of `getDiffPositions` (lines 246-272 of the source)

The source splits the file's diff segment on newlines and walks it
with a mutable state: `lineMap` (a JS object), `currentPosition`,
`leftLine`, `rightLine`.  `leftLine`/`rightLine` are JS numbers that
can go negative (`parseInt(a) - 1` with `a = 0`), so they are `Int`
here; positions are `Nat`. -/

/-- One recorded assignment `lineMap[rightLine] = currentPosition`.
The whole JS object is the list of assignments in execution order. -/
abbrev LineMap := List (Int × Nat)

/-- Reading `m[k]` from the JS object: the last assignment to `k`
wins, absence is `undefined` (`none`). -/
def mapGet (m : LineMap) (k : Int) : Option Nat :=
  m.reverse.lookup k

/-- The key set of the JS object (each assigned key, in assignment
order; duplicates are harmless for membership statements). -/
def mapKeys (m : LineMap) : List Int :=
  (m.map (fun p => p.1)).dedup

/-- `parseInt(digits, 10)` on a digit run, as the source's regex
captures hand to `parseInt`. -/
def digitsToNat (ds : List Char) : Nat :=
  ds.foldl (fun n c => n * 10 + (c.toNat - 48)) 0

/-- Greedy `\d+` at the head of the input followed by `parseInt`:
consumes the maximal digit run, fails when the first character is not
a digit. -/
def takeDigitsAux (acc : Nat) : List Char → Nat × List Char
  | [] => (acc, [])
  | c :: rest =>
    if c.isDigit then takeDigitsAux (acc * 10 + (c.toNat - 48)) rest
    else (acc, c :: rest)

/-- `\d+` with its captured value: at least one digit, greedy. -/
def takeDigits : List Char → Option (Nat × List Char)
  | [] => none
  | c :: rest =>
    if c.isDigit then some (takeDigitsAux 0 (c :: rest))
    else none

/-- A single literal character of the searched pattern. -/
def expectChar (c : Char) : List Char → Option (List Char)
  | [] => none
  | x :: rest => if x = c then some rest else none

/-- The hunk-header regex `@@ -(\d+),\d+ \+(\d+),\d+ @@` tried at one
start position: the two captures are the old and new start lines.
Greediness of `\d+` needs no backtracking because each run is followed
by a non-digit literal. -/
def parseHunkAt (l : List Char) : Option (Nat × Nat) :=
  (expectChar '@' l).bind fun r =>
  (expectChar '@' r).bind fun r =>
  (expectChar ' ' r).bind fun r =>
  (expectChar '-' r).bind fun r =>
  (takeDigits r).bind fun av =>
  (expectChar ',' av.2).bind fun r =>
  (takeDigits r).bind fun bv =>
  (expectChar ' ' bv.2).bind fun r =>
  (expectChar '+' r).bind fun r =>
  (takeDigits r).bind fun cv =>
  (expectChar ',' cv.2).bind fun r =>
  (takeDigits r).bind fun dv =>
  (expectChar ' ' dv.2).bind fun r =>
  (expectChar '@' r).bind fun r =>
  (expectChar '@' r).bind fun _ =>
  some (av.1, cv.1)

/-- `line.match(/@@ -(\d+),\d+ \+(\d+),\d+ @@/)`: the unanchored
search tries every start position left to right. -/
def hunkSearch : List Char → Option (Nat × Nat)
  | [] => none
  | c :: rest =>
    match parseHunkAt (c :: rest) with
    | some r => some r
    | none => hunkSearch rest

/-- The walk's mutable state (source lines 247-250): `lineMap`,
`currentPosition`, `leftLine`, `rightLine`. -/
structure WalkState where
  lineMap : LineMap
  currentPosition : Nat
  leftLine : Int
  rightLine : Int
deriving Repr, DecidableEq

/-- The loop body (source lines 252-272).  The `if`/`else if` chain is
kept in source order; note that a `---` line satisfies
`line.startsWith('-')` and a `+++` line satisfies
`line.startsWith('+')`, so only `diff` and `index` lines ever reach
the final branch's exclusion test.  `currentPosition++` runs on every
line. -/
def stepLine (st : WalkState) (line : List Char) : WalkState :=
  let st' :=
    if "@@".data.isPrefixOf line then
      match hunkSearch line with
      | some ac =>
        { st with leftLine := (ac.1 : Int) - 1, rightLine := (ac.2 : Int) - 1 }
      | none => st
    else if "-".data.isPrefixOf line then
      { st with leftLine := st.leftLine + 1 }
    else if "+".data.isPrefixOf line then
      { st with rightLine := st.rightLine + 1,
                lineMap := st.lineMap ++ [(st.rightLine + 1, st.currentPosition)] }
    else if !("diff".data.isPrefixOf line) && !("index".data.isPrefixOf line)
         && !("---".data.isPrefixOf line) && !("+++".data.isPrefixOf line) then
      { st with leftLine := st.leftLine + 1,
                rightLine := st.rightLine + 1,
                lineMap := st.lineMap ++ [(st.rightLine + 1, st.currentPosition)] }
    else
      st
  { st' with currentPosition := st.currentPosition + 1 }

/-- The whole walk over the segment's lines, from the initial state of
source lines 247-250. -/
def walk (lines : List (List Char)) : WalkState :=
  lines.foldl stepLine ⟨[], 0, 0, 0⟩

/-- JS `fileDiff.split('\n')`: `""` yields `[""]`, a trailing newline
yields a trailing empty line. -/
def splitNl : List Char → List (List Char)
  | [] => [[]]
  | c :: rest =>
    if c = '\n' then [] :: splitNl rest
    else
      match splitNl rest with
      | [] => [[c]]
      | l :: ls => (c :: l) :: ls

/-! ## Segment isolation (source lines 232-243)

The file's segment is found with
`new RegExp('^diff --git a/' + esc + ' b/' + esc, 'm')` where `esc`
is the path with each `/` replaced by `\/` — the only escaping the
source performs, so a `.` in the path stays a regex wildcard.  The
pattern is compiled to a list of literal/wildcard characters and
searched at every line start (`m` flag); the unmodeled regex
metacharacters (`*`, `+`, `(`, …) are treated as literals here, and
every theorem about this search restricts the path to characters on
which that model is exact. -/

/-- One compiled pattern character. -/
inductive PatChar where
  | lit (c : Char)
  | anyNotNl
deriving Repr, DecidableEq

/-- `filePath.replace(/\//g, '\\/')`. -/
def escSlash : List Char → List Char
  | [] => []
  | c :: rest =>
    if c = '/' then '\\' :: '/' :: escSlash rest
    else c :: escSlash rest

/-- Regex compilation of the built source string: `\x` is the literal
`x`, `.` matches any character but a newline, everything else is a
literal. -/
def compilePat : List Char → List PatChar
  | [] => []
  | c :: rest =>
    if c = '\\' then
      match rest with
      | [] => [PatChar.lit '\\']
      | d :: rest' => PatChar.lit d :: compilePat rest'
    else if c = '.' then PatChar.anyNotNl :: compilePat rest
    else PatChar.lit c :: compilePat rest

/-- Does the compiled pattern match a prefix of the text? -/
def patMatchesAt : List PatChar → List Char → Bool
  | [], _ => true
  | _ :: _, [] => false
  | p :: ps, c :: cs =>
    (match p with
     | PatChar.lit d => d = c
     | PatChar.anyNotNl => c ≠ '\n') && patMatchesAt ps cs

/-- The `m`-flag search for a `^`-anchored pattern: try every position
that starts the string or follows a newline, left to right, returning
the index of the first match (`match.index`). -/
def findFrom (pat : List PatChar) : List Char → Nat → Bool → Option Nat
  | [], i, atStart => if atStart && patMatchesAt pat [] then some i else none
  | c :: rest, i, atStart =>
    if atStart && patMatchesAt pat (c :: rest) then some i
    else findFrom pat rest (i + 1) (c = '\n')

/-- `text.match(pattern)` for a `^…`-pattern with the `m` flag,
returning `match.index`. -/
def findLineStartMatch (pat : List PatChar) (text : List Char) : Option Nat :=
  findFrom pat text 0 true

/-- The regex source built on line 232:
`'^diff --git a/' + esc(path) + ' b/' + esc(path)` (the `^` anchor is
realised by `findLineStartMatch`). -/
def filePatternSource (filePath : List Char) : List Char :=
  "diff --git a/".data ++ escSlash filePath ++ " b/".data ++ escSlash filePath

/-- JS `s.substring(a, b)` (with `a ≤ b`, as in every use here). -/
def jsSubstringList (s : List Char) (a b : Nat) : List Char :=
  (s.take b).drop a

/-- `getDiffPositions` (source lines 219-279) on the already-fetched
diff text: isolate the path's segment between its `diff --git` header
and the next one, split it into lines and run the walk.  A missing
segment gives the empty map. -/
def getDiffPositions (diff : String) (filePath : String) : LineMap :=
  let pat := compilePat (filePatternSource filePath.data)
  match findLineStartMatch pat diff.data with
  | none => []
  | some fileStartIndex =>
    let rest := diff.data.drop (fileStartIndex + 1)
    let fileEndIndex :=
      match findLineStartMatch (compilePat "diff --git".data) rest with
      | some j => fileStartIndex + 1 + j
      | none => diff.data.length
    let fileDiff := jsSubstringList diff.data fileStartIndex fileEndIndex
    (walk (splitNl fileDiff)).lineMap

/-! ## The syntax scanner `detectFunctions` (source lines 42-173)

The source parses a file with the babel parser and walks the tree with
four visitors.  The tree is embedded as a closed variant covering the
node shapes those visitors read (a top-level program; the detection
logic never recurses into function bodies for the claims below).  Two
facts about the parsing library are part of the model and are recorded
where used: a comment block `/** … */` is attached as
`leadingComments` of the statement node that follows it, and plain AST
nodes carry no `parent` field — only traversal paths do — so a member
access `node.parent` on an AST node yields `undefined`. -/

/-- A comment as the visitors read it: `comment.type === 'CommentBlock'`
and `comment.value` (the text between the delimiters). -/
structure JsComment where
  block : Bool
  text : String
deriving Repr, DecidableEq

/-- The test of source lines 79-80:
`comment.type === 'CommentBlock' && comment.value.startsWith('*')`
(the prefix test taken on the character list). -/
def isDocComment (c : JsComment) : Bool :=
  c.block && "*".data.isPrefixOf c.text.data

/-- The shape of a `VariableDeclarator`'s initializer, as far as line
100 inspects it (`node.init.type`). -/
inductive InitKind where
  | functionExpression
  | arrowFunctionExpression
  | otherInit
deriving Repr, DecidableEq

/-- `node.init.type === 'FunctionExpression' || … === 'ArrowFunctionExpression'`. -/
def initIsFunction : InitKind → Bool
  | InitKind.functionExpression => true
  | InitKind.arrowFunctionExpression => true
  | InitKind.otherInit => false

/-- A `VariableDeclarator` node: `id.name` (absent for patterns),
`init`, `start`/`end` offsets and the 1-based start line. -/
structure DeclaratorNode where
  idName : Option String
  init : Option InitKind
  start : Nat
  stop : Nat
  startLine : Nat
deriving Repr, DecidableEq

/-- A `ClassMethod` or `ObjectMethod` node: `keyName` is `key.name`,
or for an object method with a string-literal key its `key.value`
(source line 146); `leading` is `node.leadingComments`. -/
structure MethodNode where
  keyName : Option String
  leading : List JsComment
  start : Nat
  stop : Nat
  startLine : Nat
deriving Repr, DecidableEq

/-- A top-level statement as the four visitors see it.  `leading` on a
statement is its `leadingComments` — where the parsing library puts a
doc comment written right above the statement. -/
inductive StatementNode where
  | functionDeclaration (idName : Option String) (leading : List JsComment)
      (start stop startLine : Nat)
  | variableDeclaration (leading : List JsComment) (declarators : List DeclaratorNode)
  | classDeclaration (methods : List MethodNode)
  | objectStatement (methods : List MethodNode)
deriving Repr, DecidableEq

/-- The `Program` node: its own `leadingComments` (comments are
attached to the statements they precede, never to the enclosing
`Program`, so this is empty in every parse the library produces) and
the statement list. -/
structure ProgramNode where
  leading : List JsComment
  body : List StatementNode
deriving Repr, DecidableEq

/-- One emitted function record (source lines 83-90 and analogues). -/
structure FuncInfo where
  name : String
  startIndex : Nat
  content : String
  type : String
  startLine : Nat
  lineContent : String
deriving Repr, DecidableEq

/-- `fileContent.substring(node.start, node.end)`. -/
def jsSubstring (s : String) (a b : Nat) : String :=
  ⟨jsSubstringList s.data a b⟩

/-- `fileContent.split('\n')[line - 1] || ''` (source line 89). -/
def jsLineAt (s : String) (line : Nat) : String :=
  ⟨(splitNl s.data).getD (line - 1) []⟩

/-- The `FunctionDeclaration` visitor (source lines 74-93).  The JSDoc
test reads `path.parent.leadingComments`: the parent of a top-level
function declaration is the `Program` node, so `parentLeading` is the
program's `leadingComments` — not the declaration's own. -/
def visitFunctionDeclaration (fileContent : String) (parentLeading : List JsComment)
    (idName : Option String) (start stop startLine : Nat) : List FuncInfo :=
  match idName with
  | none => []
  | some name =>
    let hasJSDoc := parentLeading.any isDocComment
    if hasJSDoc then []
    else [⟨name, start, jsSubstring fileContent start stop, "function", startLine,
           jsLineAt fileContent startLine⟩]

/-- The `VariableDeclarator` visitor (source lines 96-119).  The JSDoc
test reads `path.parent.parent.leadingComments`; `path.parent` is the
`VariableDeclaration` AST node, and AST nodes carry no `parent` field,
so `path.parent.parent` is `undefined` and the conjunction
`path.parent && path.parent.parent && …` is always falsy — whatever
comments sit on the declaration statement. -/
def visitVariableDeclarator (fileContent : String) (d : DeclaratorNode) : List FuncInfo :=
  match d.idName, d.init with
  | some name, some init =>
    if initIsFunction init then
      let parentParent : Option (List JsComment) := none
      let hasJSDoc := (parentParent.map (fun cs => cs.any isDocComment)).getD false
      if hasJSDoc then []
      else [⟨name, d.start, jsSubstring fileContent d.start d.stop, "function",
             d.startLine, jsLineAt fileContent d.startLine⟩]
    else []
  | _, _ => []

/-- The `ClassMethod`/`ObjectMethod` visitors (source lines 122-163):
both read the node's own `leadingComments`. -/
def visitMethod (fileContent : String) (m : MethodNode) : List FuncInfo :=
  match m.keyName with
  | none => []
  | some name =>
    let hasJSDoc := m.leading.any isDocComment
    if hasJSDoc then []
    else [⟨name, m.start, jsSubstring fileContent m.start m.stop, "method",
           m.startLine, jsLineAt fileContent m.startLine⟩]

/-- The traversal of source lines 72-164 over a parsed program, in
source order. -/
def detectFunctionsAst (fileContent : String) (prog : ProgramNode) : List FuncInfo :=
  prog.body.flatMap fun stmt =>
    match stmt with
    | StatementNode.functionDeclaration idName _leading start stop startLine =>
      visitFunctionDeclaration fileContent prog.leading idName start stop startLine
    | StatementNode.variableDeclaration _leading ds =>
      ds.flatMap (visitVariableDeclarator fileContent)
    | StatementNode.classDeclaration ms => ms.flatMap (visitMethod fileContent)
    | StatementNode.objectStatement ms => ms.flatMap (visitMethod fileContent)

/-! ## Per-file processing and the run summary
(`detectFunctions`' catch, `submitPRReview`, `processFile`, `main`) -/

/-- The run statistics object of source lines 30-35. -/
structure Stats where
  totalFiles : Nat
  totalFunctions : Nat
  totalSuggestions : Nat
  suggestedFiles : List (String × Nat)
deriving Repr, DecidableEq

/-- Its initializer. -/
def statsInit : Stats := ⟨0, 0, 0, []⟩

/-- One review suggestion (source lines 343-349). -/
structure Suggestion where
  filePath : String
  position : Nat
  jsdocComment : String
  lineContent : String
  functionName : String
deriving Repr, DecidableEq

/-- Everything `processFile` consumes for one file.  `parse` is the
outcome of `fs.readFileSync` + `parser.parse` (the content and its
tree, or the thrown message); `gen` is the completion endpoint
(source `generateJSDocComment`: the trimmed text, or `null` on any
transport error); `diffText` is the diff the REST API returns;
`publishOk` is whether `octokit.pulls.createReview` succeeds. -/
structure FileEnv where
  path : String
  parse : Except String (String × ProgramNode)
  gen : String → String → Option String
  diffText : String
  publishOk : Bool

/-- The `console.error` of source line 169. -/
def detectErrorLog (filePath msg : String) : String :=
  "Error detecting functions in " ++ filePath ++ ": " ++ msg

/-- `detectFunctions` (source lines 42-173): on a parse failure the
catch logs the cause and falls back to the empty array. -/
def detectFunctions (env : FileEnv) : List FuncInfo × List String :=
  match env.parse with
  | Except.error msg => ([], [detectErrorLog env.path msg])
  | Except.ok (content, prog) => (detectFunctionsAst content prog, [])

/-- `submitPRReview` (source lines 285-311): empty input is a logged
no-op; a rejected review submission is caught and logged, and nothing
else happens — the failure is not re-thrown. -/
def submitPRReview (suggestions : List Suggestion) (publishOk : Bool) : List String :=
  if suggestions.isEmpty then ["No suggestions to submit"]
  else if publishOk then
    ["Successfully submitted " ++ Nat.repr suggestions.length ++ " JSDoc suggestions"]
  else ["Error submitting PR review"]

/-- The suggestion-assembly loop of source lines 335-356 for one
function: a truthy generated comment (non-null and non-empty — JS
`if (jsdocComment)`) paired with a defined diff position. -/
def buildSuggestion (env : FileEnv) (positions : LineMap) (f : FuncInfo) :
    Option Suggestion :=
  match env.gen f.name f.content with
  | none => none
  | some jsdoc =>
    if jsdoc = "" then none
    else
      match mapGet positions (f.startLine : Int) with
      | some pos => some ⟨env.path, pos, jsdoc, f.lineContent, f.name⟩
      | none => none

/-- `processFile` (source lines 317-373): detect, locate, assemble,
submit, count.  `stats.totalSuggestions` is incremented once per
assembled suggestion inside the loop — before `submitPRReview` runs —
and `stats.suggestedFiles` is pushed after the `await` returns, which
it does whether or not the submission succeeded.  Returns the new
stats, the suggestion count, and the log lines. -/
def processFile (st : Stats) (env : FileEnv) : Stats × Nat × List String :=
  let det := detectFunctions env
  if det.1.isEmpty then (st, 0, det.2)
  else
    let positions := getDiffPositions env.diffText env.path
    let suggestions := det.1.filterMap (buildSuggestion env positions)
    let st1 := { st with totalSuggestions := st.totalSuggestions + suggestions.length }
    if suggestions.length > 0 then
      let logs := det.2 ++ submitPRReview suggestions env.publishOk
      ({ st1 with suggestedFiles := st1.suggestedFiles ++ [(env.path, suggestions.length)] },
       suggestions.length, logs)
    else (st1, 0, det.2)

/-- The loop of `main` (source lines 393-397): strictly sequential,
one `processFile` per non-blank entry, on the trimmed path. -/
def runFiles (st : Stats) (envs : List FileEnv) : Stats :=
  envs.foldl
    (fun s e =>
      if e.path.trim = "" then s
      else (processFile s { e with path := e.path.trim }).1)
    st

/-- `main` (source lines 378-428) up to the summary: set
`stats.totalFiles` to the file count, then run the loop. -/
def mainRun (envs : List FileEnv) : Stats :=
  runFiles { statsInit with totalFiles := envs.length } envs

/-- One row of the per-file table (source line 414). -/
def summaryRow (entry : String × Nat) : List Char :=
  "| `".data ++ entry.1.data ++ "` | ".data ++ (Nat.repr entry.2).data ++ " |".data

/-- The part of the summary template after the functions-analyzed
line: the remaining counters, the optional per-file table, and the
footer (source lines 406-418). -/
def summaryTail (st : Stats) : List Char :=
  "\n- Total JSDoc suggestions: ".data ++ (Nat.repr st.totalSuggestions).data
  ++ "\n- Files with suggestions: ".data ++ (Nat.repr st.suggestedFiles.length).data
  ++ "\n\n".data
  ++ (if st.suggestedFiles.length > 0 then
        "\n## Files with JSDoc Suggestions\n\n| File | Suggestions |\n|------|-------------|\n".data
        ++ (List.intercalate "\n".data (st.suggestedFiles.map summaryRow)) ++ "\n".data
      else [])
  ++ "\n\nℹ️ These JSDoc suggestions were automatically generated using AI. \nYou can apply them directly by clicking the \"Commit suggestion\" button on each review comment.\n".data

/-- The summary markdown written by source lines 400-419, as the
character list of the template with the statistics spliced in. -/
def summaryChars (st : Stats) : List Char :=
  ("\n## Summary of JSDoc Suggestions\n\n📊 **Statistics**:\n- Total files processed: ".data
    ++ (Nat.repr st.totalFiles).data ++ "\n- ".data)
  ++ ("Total functions analyzed: ".data ++ (Nat.repr st.totalFunctions).data)
  ++ summaryTail st

/-! ## Shapes and fixtures referenced by the theorems -/

/-- A hunk-header line `@@ -a,b +c,d @@` with the four numbers given
as digit runs. -/
def hunkHeaderLine (da db dc dd : List Char) : List Char :=
  '@' :: '@' :: ' ' :: '-' ::
    (da ++ ',' :: (db ++ ' ' :: '+' :: (dc ++ ',' :: (dd ++ [' ', '@', '@']))))

/-- A hunk-header line `@@ -a +c @@` without the comma-separated
counts, as git emits for single-line ranges. -/
def hunkHeaderLineNC (da dc : List Char) : List Char :=
  '@' :: '@' :: ' ' :: '-' :: (da ++ ' ' :: '+' :: (dc ++ [' ', '@', '@']))

/-- The literal text `diff --git a/<path> b/<path>` for a path, the
string the source's file pattern is meant to find at a line start. -/
def litPattern (filePath : List Char) : List Char :=
  "diff --git a/".data ++ filePath ++ " b/".data ++ filePath

/-- The regex metacharacters the source leaves unescaped in the file
path (plus newline); theorems about the pattern search restrict paths
to characters outside this list, where the pattern is purely
literal. -/
def regexMeta : List Char :=
  ['\\', '.', '*', '+', '?', '(', ')', '[', ']', '^', '$', '|', '\n', '\x7b', '\x7d']

/-- The suffixes of a text at line-start positions (the whole text
when already at a line start, and every suffix following a newline):
exactly the positions `findFrom` tries. -/
def lss : List Char → Bool → List (List Char)
  | [], true => [[]]
  | [], false => []
  | c :: r, s => (if s then [c :: r] else []) ++ lss r (c = '\n')

/-- The single-hunk segment of the spec's worked example: header
`@@ -1,3 +1,4 @@`, one removed line, two context lines, one added
line. -/
def c4Segment : List (List Char) :=
  ["@@ -1,3 +1,4 @@".data, "-old".data, " ctx".data, " ctx2".data, "+new".data]

/-- A diff whose only hunk touches new-file lines 10-12 of `f`. -/
def c2Diff : String :=
  "diff --git a/f b/f\nindex 1..2 100644\n--- a/f\n+++ b/f\n@@ -10,2 +10,3 @@\n ctx\n+add\n ctx"

/-- A diff for a file named `aXjs` — and for no other file. -/
def c5Diff : String :=
  "diff --git a/aXjs b/aXjs\nindex 1..2 100644\n--- a/aXjs\n+++ b/aXjs\n@@ -1,1 +1,2 @@\n context\n+added"

/-- The doc comment preceding the declaration in `c6Source`. -/
def c6Comment : JsComment := ⟨true, "* Doubles x. "⟩

/-- A source file whose only declaration is documented:
`/** Doubles x. */` directly above `const double = (x) => x * 2;`. -/
def c6Source : String :=
  "/** Doubles x. */\nconst double = (x) => x * 2;"

/-- The parse of `c6Source`: the block comment is attached as
`leadingComments` of the `VariableDeclaration` statement; the
declarator `double = (x) => x * 2` spans offsets 24-45 on line 2. -/
def c6Ast : ProgramNode :=
  ⟨[], [StatementNode.variableDeclaration [c6Comment]
         [⟨some "double", some InitKind.arrowFunctionExpression, 24, 45, 2⟩]]⟩

/-- `math.js`: one undocumented top-level function on line 1. -/
def c7Content : String :=
  "function add(a, b) \x7b return a + b; \x7d"

/-- The parse of `c7Content`: a single `FunctionDeclaration` named
`add`, offsets 0-37, line 1, with no leading comments anywhere. -/
def c7Ast : ProgramNode :=
  ⟨[], [StatementNode.functionDeclaration (some "add") [] 0 37 1]⟩

/-- The pull-request diff that adds `math.js` whole. -/
def c7Diff : String :=
  "diff --git a/math.js b/math.js\nindex 0000000..1111111 100644\n--- a/math.js\n+++ b/math.js\n@@ -0,0 +1,1 @@\n+function add(a, b) \x7b return a + b; \x7d"

/-- The `math.js` environment in a run whose review submission is
rejected by the REST API (`publishOk := false`): the completion
endpoint answers every request with a fixed comment. -/
def c7Env : FileEnv :=
  ⟨"math.js", Except.ok (c7Content, c7Ast),
   fun _ _ => some "/** Adds two numbers. */", c7Diff, false⟩

/-- A file whose text does not parse: `parse` is the thrown message. -/
def c8BadEnv : FileEnv :=
  ⟨"broken.js", Except.error "Unexpected token (1:5)",
   fun _ _ => none, "", true⟩

/-- A well-formed file processed after the failing one. -/
def c8GoodEnv : FileEnv :=
  ⟨"math.js", Except.ok (c7Content, c7Ast),
   fun _ _ => some "/** Adds two numbers. */", c7Diff, true⟩

/-! ## Helper lemmas: the walk's position counter and the hunk regex -/

/-- `currentPosition++` runs on every line, whatever the branch. -/
theorem stepLine_currentPosition (st : WalkState) (line : List Char) :
    (stepLine st line).currentPosition = st.currentPosition + 1 := rfl

/-- Folding the loop body adds exactly the number of lines to the
position counter. -/
theorem foldl_stepLine_currentPosition (lines : List (List Char)) :
    ∀ st : WalkState,
      (lines.foldl stepLine st).currentPosition = st.currentPosition + lines.length := by
  induction lines with
  | nil => intro st; simp
  | cons l ls ih =>
    intro st
    simp only [List.foldl_cons, ih, stepLine_currentPosition, List.length_cons]
    omega

/-- `takeDigitsAux` consumes exactly a leading digit run. -/
theorem takeDigitsAux_append (ds : List Char) :
    ∀ (r : List Char) (acc : Nat), (∀ c ∈ ds, c.isDigit) →
      (∀ c, r.head? = some c → c.isDigit = false) →
      takeDigitsAux acc (ds ++ r)
        = (ds.foldl (fun n c => n * 10 + (c.toNat - 48)) acc, r) := by
  induction ds with
  | nil =>
    intro r acc _ hr
    cases r with
    | nil => simp [takeDigitsAux]
    | cons c r' =>
      have := hr c rfl
      simp [takeDigitsAux, this]
  | cons d ds' ih =>
    intro r acc hds hr
    have hd : d.isDigit := hds d (by simp)
    simp only [List.cons_append, takeDigitsAux, hd, if_true, List.foldl_cons]
    exact ih r _ (fun c hc => hds c (by simp [hc])) hr

/-- `\d+` on a digit run followed by a non-digit: the captured value
is `parseInt` of the run and the rest starts at the non-digit. -/
theorem takeDigits_append (ds r : List Char) (hne : ds ≠ [])
    (hds : ∀ c ∈ ds, c.isDigit)
    (hr : ∀ c, r.head? = some c → c.isDigit = false) :
    takeDigits (ds ++ r) = some (digitsToNat ds, r) := by
  cases ds with
  | nil => exact absurd rfl hne
  | cons d ds' =>
    have hd : d.isDigit := hds d (by simp)
    simp only [List.cons_append, takeDigits, hd, if_true]
    rw [show (d :: (ds' ++ r)) = (d :: ds') ++ r from rfl,
        takeDigitsAux_append (d :: ds') r 0 hds hr]
    rfl

/-- `expectChar` on the very character it expects. -/
theorem expectChar_cons_self (c : Char) (r : List Char) :
    expectChar c (c :: r) = some r := by
  simp [expectChar]

/-- The head of a cons is digit-free when its head character is. -/
theorem head_nondigit_cons (c : Char) (r : List Char) (h : c.isDigit = false) :
    ∀ x, (c :: r).head? = some x → x.isDigit = false := by
  intro x hx
  simp only [List.head?_cons, Option.some.injEq] at hx
  subst hx
  exact h

/-- The hunk regex matches a well-formed `@@ -a,b +c,d @@` header at
its start and captures `a` and `c`. -/
theorem parseHunkAt_header (da db dc dd : List Char)
    (hane : da ≠ []) (had : ∀ c ∈ da, c.isDigit)
    (hbne : db ≠ []) (hbd : ∀ c ∈ db, c.isDigit)
    (hcne : dc ≠ []) (hcd : ∀ c ∈ dc, c.isDigit)
    (hdne : dd ≠ []) (hdd : ∀ c ∈ dd, c.isDigit) :
    parseHunkAt (hunkHeaderLine da db dc dd)
      = some (digitsToNat da, digitsToNat dc) := by
  unfold hunkHeaderLine parseHunkAt
  simp only [expectChar_cons_self, Option.some_bind]
  rw [takeDigits_append da _ hane had (head_nondigit_cons ',' _ (by decide))]
  simp only [Option.some_bind, expectChar_cons_self]
  rw [takeDigits_append db _ hbne hbd (head_nondigit_cons ' ' _ (by decide))]
  simp only [Option.some_bind, expectChar_cons_self]
  rw [takeDigits_append dc _ hcne hcd (head_nondigit_cons ',' _ (by decide))]
  simp only [Option.some_bind, expectChar_cons_self]
  rw [show dd ++ [' ', '@', '@'] = dd ++ ' ' :: ['@', '@'] from rfl,
      takeDigits_append dd _ hdne hdd (head_nondigit_cons ' ' _ (by decide))]
  simp only [Option.some_bind, expectChar_cons_self]

/-- The unanchored search finds the header match at position 0. -/
theorem hunkSearch_header (da db dc dd : List Char)
    (hane : da ≠ []) (had : ∀ c ∈ da, c.isDigit)
    (hbne : db ≠ []) (hbd : ∀ c ∈ db, c.isDigit)
    (hcne : dc ≠ []) (hcd : ∀ c ∈ dc, c.isDigit)
    (hdne : dd ≠ []) (hdd : ∀ c ∈ dd, c.isDigit) :
    hunkSearch (hunkHeaderLine da db dc dd)
      = some (digitsToNat da, digitsToNat dc) := by
  have h := parseHunkAt_header da db dc dd hane had hbne hbd hcne hcd hdne hdd
  unfold hunkHeaderLine at h ⊢
  rw [hunkSearch, h]

/-- `parseHunkAt` fails wherever the first character is not `@`. -/
theorem parseHunkAt_cons_ne (c : Char) (r : List Char) (h : c ≠ '@') :
    parseHunkAt (c :: r) = none := by
  unfold parseHunkAt
  simp [expectChar, h]

/-- `parseHunkAt` fails on the empty string. -/
theorem parseHunkAt_nil : parseHunkAt [] = none := rfl

/-- If the regex matches at no start position, the unanchored search
fails. -/
theorem hunkSearch_eq_none (l : List Char)
    (h : ∀ s, s <:+ l → parseHunkAt s = none) : hunkSearch l = none := by
  induction l with
  | nil => rfl
  | cons c rest ih =>
    rw [hunkSearch, h (c :: rest) (List.suffix_refl _)]
    exact ih fun s hs => h s (hs.trans (List.suffix_cons c rest))

/-- Every suffix of `a ++ b` is a suffix of `b` or a nonempty suffix
of `a` followed by all of `b`. -/
theorem suffix_append_cases (s a b : List α) (h : s <:+ a ++ b) :
    s <:+ b ∨ ∃ t, t <:+ a ∧ t ≠ [] ∧ s = t ++ b := by
  induction a with
  | nil => exact Or.inl (by simpa using h)
  | cons x a' ih =>
    rw [List.cons_append, List.suffix_cons_iff] at h
    rcases h with h | h
    · exact Or.inr ⟨x :: a', List.suffix_refl _, by simp, h⟩
    · rcases ih h with h' | ⟨t, ht, htne, hs⟩
      · exact Or.inl h'
      · exact Or.inr ⟨t, ht.trans (List.suffix_cons x a'), htne, hs⟩

/-- A digit run's followers never start a `@@` match. -/
theorem parseHunkAt_digit_head (t r ds : List Char) (hds : ∀ c ∈ ds, c.isDigit)
    (ht : t <:+ ds) (htne : t ≠ []) : parseHunkAt (t ++ r) = none := by
  cases t with
  | nil => exact absurd rfl htne
  | cons d t' =>
    have hd : d.isDigit := hds d (ht.subset (by simp))
    have : d ≠ '@' := by
      intro h
      rw [h] at hd
      exact absurd hd (by decide)
    exact parseHunkAt_cons_ne d _ this

/-- The comma-free header `@@ -a +c @@` matches the hunk regex at no
start position: at position 0 the `,` after the first capture is
missing, and every later position fails even earlier. -/
theorem hunkSearch_headerNC_none (da dc : List Char) (hane : da ≠ [])
    (had : ∀ c ∈ da, c.isDigit) (hcd : ∀ c ∈ dc, c.isDigit) :
    hunkSearch (hunkHeaderLineNC da dc) = none := by
  apply hunkSearch_eq_none
  intro s hs
  unfold hunkHeaderLineNC at hs
  rw [List.suffix_cons_iff] at hs
  rcases hs with hs | hs
  · -- the whole line: fails at the missing comma
    subst hs
    unfold parseHunkAt
    simp only [expectChar_cons_self, Option.some_bind]
    rw [takeDigits_append da _ hane had (head_nondigit_cons ' ' _ (by decide))]
    simp [expectChar]
  rw [List.suffix_cons_iff] at hs
  rcases hs with hs | hs
  · subst hs; unfold parseHunkAt; simp [expectChar]
  rw [List.suffix_cons_iff] at hs
  rcases hs with hs | hs
  · subst hs; exact parseHunkAt_cons_ne ' ' _ (by decide)
  rw [List.suffix_cons_iff] at hs
  rcases hs with hs | hs
  · subst hs; exact parseHunkAt_cons_ne '-' _ (by decide)
  rcases suffix_append_cases s da _ hs with hs | ⟨t, ht, htne, hteq⟩
  swap
  · subst hteq; exact parseHunkAt_digit_head t _ da had ht htne
  rw [List.suffix_cons_iff] at hs
  rcases hs with hs | hs
  · subst hs; exact parseHunkAt_cons_ne ' ' _ (by decide)
  rw [List.suffix_cons_iff] at hs
  rcases hs with hs | hs
  · subst hs; exact parseHunkAt_cons_ne '+' _ (by decide)
  rcases suffix_append_cases s dc _ hs with hs | ⟨t, ht, htne, hteq⟩
  swap
  · subst hteq; exact parseHunkAt_digit_head t _ dc hcd ht htne
  rw [List.suffix_cons_iff] at hs
  rcases hs with hs | hs
  · subst hs; exact parseHunkAt_cons_ne ' ' _ (by decide)
  rw [List.suffix_cons_iff] at hs
  rcases hs with hs | hs
  · subst hs; unfold parseHunkAt; simp [expectChar]
  rw [List.suffix_cons_iff] at hs
  rcases hs with hs | hs
  · subst hs; unfold parseHunkAt; simp [expectChar]
  rw [List.suffix_nil] at hs
  subst hs
  exact parseHunkAt_nil

/-- `line.startsWith('@@')` holds on any line beginning `@@`. -/
theorem atat_isPrefixOf (r : List Char) :
    "@@".data.isPrefixOf ('@' :: '@' :: r) = true := by
  show (['@', '@'] : List Char).isPrefixOf ('@' :: '@' :: r) = true
  simp [List.isPrefixOf]

/-- A `@@` line on which the hunk regex fails only advances the
position counter: the two line counters and the map are untouched. -/
theorem stepLine_hunkSearch_none (st : WalkState) (line : List Char)
    (hpre : "@@".data.isPrefixOf line = true) (hnone : hunkSearch line = none) :
    stepLine st line = { st with currentPosition := st.currentPosition + 1 } := by
  unfold stepLine
  simp [hpre, hnone]

/-- A well-formed hunk header resets the two line counters to the
captured starts minus one and advances the position counter. -/
theorem stepLine_header (st : WalkState) (da db dc dd : List Char)
    (hane : da ≠ []) (had : ∀ c ∈ da, c.isDigit)
    (hbne : db ≠ []) (hbd : ∀ c ∈ db, c.isDigit)
    (hcne : dc ≠ []) (hcd : ∀ c ∈ dc, c.isDigit)
    (hdne : dd ≠ []) (hdd : ∀ c ∈ dd, c.isDigit) :
    stepLine st (hunkHeaderLine da db dc dd)
      = ⟨st.lineMap, st.currentPosition + 1,
         (digitsToNat da : Int) - 1, (digitsToNat dc : Int) - 1⟩ := by
  have hpre : "@@".data.isPrefixOf (hunkHeaderLine da db dc dd) = true :=
    atat_isPrefixOf _
  have hsearch := hunkSearch_header da db dc dd hane had hbne hbd hcne hcd hdne hdd
  unfold stepLine
  simp [hpre, hsearch]

/-! ## Helper lemmas: the file-pattern search -/

/-- Compilation passes over a metacharacter-free chunk literally. -/
theorem compilePat_lit_append (xs : List Char)
    (h : ∀ c ∈ xs, c ≠ '\\' ∧ c ≠ '.') :
    ∀ r, compilePat (xs ++ r) = xs.map PatChar.lit ++ compilePat r := by
  induction xs with
  | nil => intro r; simp
  | cons c cs ih =>
    intro r
    have hc := h c (by simp)
    rw [List.cons_append, compilePat.eq_def]
    simp only [hc.1, hc.2]
    simp only [if_false, List.map_cons, List.cons_append]
    rw [ih (fun x hx => h x (by simp [hx])) r]

/-- Compilation of the slash-escaped path: every `\/` pair collapses
back to the literal `/`, every other character (no backslash, no dot)
stays literal. -/
theorem compilePat_escSlash_append (p : List Char)
    (h : ∀ c ∈ p, c ≠ '\\' ∧ c ≠ '.') :
    ∀ r, compilePat (escSlash p ++ r) = p.map PatChar.lit ++ compilePat r := by
  induction p with
  | nil => intro r; simp [escSlash]
  | cons c cs ih =>
    intro r
    have hc := h c (by simp)
    by_cases hsl : c = '/'
    · subst hsl
      rw [escSlash, if_pos rfl, List.cons_append, List.cons_append, compilePat.eq_def]
      simp only [if_pos rfl]
      rw [ih (fun x hx => h x (by simp [hx])) r]
      simp
    · rw [escSlash, if_neg hsl, List.cons_append, compilePat.eq_def]
      simp only [hc.1, hc.2]
      simp only [if_false, List.map_cons, List.cons_append]
      rw [ih (fun x hx => h x (by simp [hx])) r]

/-- On a path free of regex metacharacters the compiled file pattern
is the literal `diff --git a/<path> b/<path>`. -/
theorem compilePat_filePatternSource (p : List Char)
    (h : ∀ c ∈ p, c ∉ regexMeta) :
    compilePat (filePatternSource p) = (litPattern p).map PatChar.lit := by
  have hp : ∀ c ∈ p, c ≠ '\\' ∧ c ≠ '.' := by
    intro c hc
    have hm := h c hc
    constructor <;> (intro he; subst he; simp [regexMeta] at hm)
  have h1 : ∀ c ∈ "diff --git a/".data, c ≠ '\\' ∧ c ≠ '.' := by decide
  have h2 : ∀ c ∈ " b/".data, c ≠ '\\' ∧ c ≠ '.' := by decide
  unfold filePatternSource litPattern
  rw [List.append_assoc, List.append_assoc,
      compilePat_lit_append _ h1 _,
      compilePat_escSlash_append p hp _,
      compilePat_lit_append _ h2 _,
      show escSlash p = escSlash p ++ [] by simp,
      compilePat_escSlash_append p hp []]
  simp [compilePat]

/-- A purely literal pattern matches a prefix exactly when the
literal string is a prefix. -/
theorem patMatchesAt_map_lit (l : List Char) :
    ∀ t, patMatchesAt (l.map PatChar.lit) t = l.isPrefixOf t := by
  induction l with
  | nil => intro t; simp [patMatchesAt, List.isPrefixOf]
  | cons c cs ih =>
    intro t
    cases t with
    | nil => simp [patMatchesAt, List.isPrefixOf]
    | cons d ds =>
      simp only [List.map_cons, patMatchesAt, List.isPrefixOf, ih ds]
      by_cases h : c = d
      · simp [h]
      · simp [h, Ne.symm h, bne_iff_ne, beq_eq_false_iff_ne]

/-- A newline-free needle is a prefix of `l ++ '\n' :: r` exactly when
it is a prefix of `l`. -/
theorem isPrefixOf_append_nl (needle : List Char) (hnl : '\n' ∉ needle) :
    ∀ l r, needle.isPrefixOf (l ++ '\n' :: r) = needle.isPrefixOf l := by
  induction needle with
  | nil => intro l r; simp [List.isPrefixOf]
  | cons c cs ih =>
    intro l r
    cases l with
    | nil =>
      have hc : c ≠ '\n' := fun h => hnl (by simp [h])
      simp [List.isPrefixOf, hc]
    | cons d ds =>
      simp only [List.cons_append, List.isPrefixOf]
      rw [show ds.append ('\n' :: r) = ds ++ '\n' :: r from rfl,
          ih (fun h => hnl (by simp [h])) ds r]

/-- `split('\n')` never yields the empty list. -/
theorem splitNl_ne_nil (t : List Char) : splitNl t ≠ [] := by
  cases t with
  | nil => simp [splitNl]
  | cons c r =>
    rw [splitNl]
    by_cases h : c = '\n'
    · simp [h]
    · simp only [h, if_false]
      cases splitNl r <;> simp

/-- Any text is its first line, optionally followed by a newline and
the rest. -/
theorem splitNl_decomp (t : List Char) :
    ∃ l ls, splitNl t = l :: ls ∧ (t = l ∨ ∃ r, t = l ++ '\n' :: r) := by
  induction t with
  | nil => exact ⟨[], [], rfl, Or.inl rfl⟩
  | cons c r ih =>
    by_cases h : c = '\n'
    · subst h
      exact ⟨[], splitNl r, by rw [splitNl]; simp, Or.inr ⟨r, rfl⟩⟩
    · obtain ⟨l, ls, hs, hd⟩ := ih
      refine ⟨c :: l, ls, ?_, ?_⟩
      · rw [splitNl]
        simp only [h, if_false, hs]
      · rcases hd with hd | ⟨r', hd⟩
        · exact Or.inl (by rw [hd])
        · exact Or.inr ⟨r', by rw [hd]; rfl⟩

/-- Splitting off a non-newline head character prepends it to the
first line and leaves the remaining lines alone. -/
theorem splitNl_cons_ne (c : Char) (r : List Char) (h : ¬ c = '\n')
    (l0 : List Char) (ls : List (List Char)) (hr : splitNl r = l0 :: ls) :
    splitNl (c :: r) = (c :: l0) :: ls := by
  rw [splitNl]
  simp only [h, if_false, hr]

/-- If no line of the text has the newline-free needle as a prefix,
neither does any line-start suffix of the text. -/
theorem lss_no_prefix (needle : List Char) (hnl : '\n' ∉ needle) :
    ∀ (t : List Char) (s : Bool),
      (∀ l ∈ (if s then splitNl t else (splitNl t).drop 1),
          needle.isPrefixOf l = false) →
      ∀ u ∈ lss t s, needle.isPrefixOf u = false := by
  intro t
  induction t with
  | nil =>
    intro s h u hu
    cases s with
    | true =>
      simp only [lss, List.mem_singleton] at hu
      subst hu
      exact h [] (by simp [splitNl])
    | false => simp [lss] at hu
  | cons c r ih =>
    intro s h u hu
    rw [lss] at hu
    rcases List.mem_append.mp hu with hu | hu
    · -- the suffix starting at this position: only tried when at a line start
      cases s with
      | false => simp at hu
      | true =>
        simp only [if_true, List.mem_singleton] at hu
        subst hu
        obtain ⟨l, ls, hs, hd⟩ := splitNl_decomp (c :: r)
        have hl : needle.isPrefixOf l = false := h l (by simp [hs])
        rcases hd with hd | ⟨r', hd⟩
        · rw [hd, hl]
        · rw [hd, isPrefixOf_append_nl needle hnl, hl]
    · -- a line-start suffix further in
      by_cases hc : c = '\n'
      · subst hc
        have hsplit : splitNl ('\n' :: r) = [] :: splitNl r := by
          rw [splitNl]
          simp
        refine ih true ?_ u (by simpa using hu)
        intro l hl
        simp only [if_true] at hl
        apply h l
        cases s with
        | true => simp only [if_true, hsplit]; exact List.mem_cons_of_mem _ hl
        | false => simpa [hsplit] using hl
      · cases hsr : splitNl r with
        | nil => exact absurd hsr (splitNl_ne_nil r)
        | cons l0 ls =>
          have hsplit := splitNl_cons_ne c r hc l0 ls hsr
          refine ih (decide (c = '\n')) ?_ u hu
          intro l hl
          rw [show decide (c = '\n') = false by simp [hc]] at hl
          simp only [Bool.false_eq_true, if_false, hsr, List.drop_succ_cons,
            List.drop_zero] at hl
          apply h l
          cases s with
          | true => simp only [if_true, hsplit]; exact List.mem_cons_of_mem _ hl
          | false => simp [hsplit, hl]

/-- If the pattern matches at no line-start suffix, the `m`-flag
search fails. -/
theorem findFrom_eq_none (pat : List PatChar) :
    ∀ (t : List Char) (i : Nat) (s : Bool),
      (∀ u ∈ lss t s, patMatchesAt pat u = false) →
      findFrom pat t i s = none := by
  intro t
  induction t with
  | nil =>
    intro i s h
    cases s with
    | true => simp [findFrom, h [] (by simp [lss])]
    | false => simp [findFrom]
  | cons c r ih =>
    intro i s h
    rw [findFrom]
    cases s with
    | true =>
      rw [h (c :: r) (by rw [lss]; simp)]
      simp only [Bool.and_false, if_false]
      exact ih (i + 1) _ fun u hu => h u (by rw [lss]; simp [hu])
    | false =>
      simp only [Bool.false_and, if_false]
      exact ih (i + 1) _ fun u hu => h u (by rw [lss]; simpa using hu)

/-! ## Helper lemmas: statistics flow -/

/-- Scanning does not read the publish outcome. -/
theorem detectFunctions_publishOk (env : FileEnv) (b : Bool) :
    detectFunctions { env with publishOk := b } = detectFunctions env := rfl

/-- Neither does suggestion assembly. -/
theorem buildSuggestion_publishOk (env : FileEnv) (b : Bool) :
    buildSuggestion { env with publishOk := b } = buildSuggestion env := rfl

/-- Field projections through the publish-outcome update. -/
theorem publishOk_update_path (env : FileEnv) (b : Bool) :
    ({ env with publishOk := b } : FileEnv).path = env.path := rfl

/-- Field projections through the publish-outcome update. -/
theorem publishOk_update_diffText (env : FileEnv) (b : Bool) :
    ({ env with publishOk := b } : FileEnv).diffText = env.diffText := rfl

/-- No branch of `processFile` touches `stats.totalFunctions`. -/
theorem processFile_totalFunctions (st : Stats) (env : FileEnv) :
    (processFile st env).1.totalFunctions = st.totalFunctions := by
  unfold processFile
  dsimp only
  split
  · rfl
  · split <;> rfl

/-- The file loop preserves `stats.totalFunctions`. -/
theorem runFiles_totalFunctions (envs : List FileEnv) :
    ∀ st : Stats, (runFiles st envs).totalFunctions = st.totalFunctions := by
  induction envs with
  | nil => intro st; rfl
  | cons e es ih =>
    intro st
    rw [runFiles, List.foldl_cons]
    by_cases h : e.path.trim = ""
    · rw [if_pos h]
      exact ih st
    · rw [if_neg h]
      rw [show ∀ s, List.foldl _ s es = runFiles s es from fun s => rfl,
          ih _, processFile_totalFunctions]

/-! ## The claims -/

/-- C1: the claim states that lines beginning `diff`, `index`, `---`,
`+++` are excluded from the oldLine/newLine counters while still
consuming one diffPosition slot.  The code's branch order contradicts
this for `---` and `+++`: walking the two file-header lines
`--- a/f` and `+++ b/f` increments `leftLine` (the `---` line matches
`line.startsWith('-')`) and increments `rightLine` while recording
`map[1] = 1` (the `+++` line matches `line.startsWith('+')`).  Were
the claim true of the code, the walk would end in
`⟨[], 2, 0, 0⟩`; it ends in `⟨[(1, 1)], 2, 1, 1⟩`.  The remaining
parts of the classification (`-`, `+`, context, `diff`/`index`
exclusion, one position per line) behave as claimed. -/
theorem c1_file_header_lines_counted :
    walk ["--- a/f".data, "+++ b/f".data] = ⟨[(1, 1)], 2, 1, 1⟩
    ∧ walk ["--- a/f".data, "+++ b/f".data] ≠ ⟨[], 2, 0, 0⟩ := by
  decide

/-- C2: the claim states the keys of the returned map are exactly the
new-file line numbers of context or added lines of the file's diff
segment.  On `c2Diff` — whose only hunk covers new-file lines 10-12 —
the map also carries the key 1, recorded at the `+++ b/f` file-header
line (position 3), though line 1 appears nowhere in the diff as a
context or added line. -/
theorem c2_spurious_key_from_plusplusplus :
    mapKeys (getDiffPositions c2Diff "f") = [1, 10, 11, 12]
    ∧ mapGet (getDiffPositions c2Diff "f") 1 = some 3 := by
  decide

/-- C3: a hunk header `@@ -a,b +c,d @@` resets the counters to
`oldLine = a - 1`, `newLine = c - 1` while leaving the map alone, and
the diffPosition counter starts at 0 at the first line of the segment
(`walk`'s initial state) and is incremented exactly once per line —
the hunk-header line included. -/
theorem c3_header_reset_and_position_count (st : WalkState)
    (lines : List (List Char)) (da db dc dd : List Char)
    (hane : da ≠ []) (had : ∀ c ∈ da, c.isDigit)
    (hbne : db ≠ []) (hbd : ∀ c ∈ db, c.isDigit)
    (hcne : dc ≠ []) (hcd : ∀ c ∈ dc, c.isDigit)
    (hdne : dd ≠ []) (hdd : ∀ c ∈ dd, c.isDigit) :
    (walk lines).currentPosition = lines.length
    ∧ (lines.foldl stepLine st).currentPosition = st.currentPosition + lines.length
    ∧ stepLine st (hunkHeaderLine da db dc dd)
        = ⟨st.lineMap, st.currentPosition + 1,
           (digitsToNat da : Int) - 1, (digitsToNat dc : Int) - 1⟩ := by
  refine ⟨?_, foldl_stepLine_currentPosition lines st,
          stepLine_header st da db dc dd hane had hbne hbd hcne hcd hdne hdd⟩
  have h := foldl_stepLine_currentPosition lines ⟨[], 0, 0, 0⟩
  simpa [walk] using h

/-- Witness for C3 at the concrete header `@@ -3,2 +5,4 @@` and the
segment of C4. -/
theorem c3_witness :
    (walk c4Segment).currentPosition = c4Segment.length
    ∧ (c4Segment.foldl stepLine ⟨[], 0, 0, 0⟩).currentPosition
        = (⟨[], 0, 0, 0⟩ : WalkState).currentPosition + c4Segment.length
    ∧ stepLine ⟨[], 0, 0, 0⟩ (hunkHeaderLine ['3'] ['2'] ['5'] ['4'])
        = ⟨(⟨[], 0, 0, 0⟩ : WalkState).lineMap,
           (⟨[], 0, 0, 0⟩ : WalkState).currentPosition + 1,
           (digitsToNat ['3'] : Int) - 1, (digitsToNat ['5'] : Int) - 1⟩ :=
  c3_header_reset_and_position_count ⟨[], 0, 0, 0⟩ c4Segment
    ['3'] ['2'] ['5'] ['4']
    (by decide) (by decide) (by decide) (by decide)
    (by decide) (by decide) (by decide) (by decide)

/-- C4: on the segment `@@ -1,3 +1,4 @@` / removed / context /
context / added, the walk puts the header at position 0 and the four
body lines at positions 1-4 (final counter 5), records the two context
lines as new lines 1, 2 at positions 2, 3, and maps the added line's
new-file number 3 to position 4. -/
theorem c4_single_hunk_example :
    walk c4Segment = ⟨[(1, 2), (2, 3), (3, 4)], 5, 3, 3⟩
    ∧ mapGet (walk c4Segment).lineMap 3 = some 4 := by
  decide

/-- C5: counterexample to the claim as stated.  No line of `c5Diff`
begins with (in particular, equals) the literal
`diff --git a/a.js b/a.js`, yet `getDiffPositions c5Diff "a.js"` is
not the empty map: the source escapes only `/` when building its file
pattern, so the `.` of `a.js` matches the `X` of the `aXjs` header
line and that file's segment is walked instead. -/
theorem c5_counterexample :
    (∀ l ∈ splitNl c5Diff.data, (litPattern "a.js".data).isPrefixOf l = false)
    ∧ getDiffPositions c5Diff "a.js" = [(1, 3), (1, 5), (2, 6)] := by
  decide

/-- C5 (amended): for a file path free of regex metacharacters — in
particular of `.` — if no line of the diff text begins with the
literal `diff --git a/<path> b/<path>`, then `getDiffPositions`
returns the empty map. -/
theorem c5_amended_no_header_empty_map (diff filePath : String)
    (hmeta : ∀ c ∈ filePath.data, c ∉ regexMeta)
    (hlines : ∀ l ∈ splitNl diff.data,
        (litPattern filePath.data).isPrefixOf l = false) :
    getDiffPositions diff filePath = [] := by
  have hnl : '\n' ∉ litPattern filePath.data := by
    unfold litPattern
    intro hmem
    have hfixed1 : '\n' ∉ "diff --git a/".data := by decide
    have hfixed2 : '\n' ∉ " b/".data := by decide
    have hpath : '\n' ∉ filePath.data := by
      intro h
      have := hmeta '\n' h
      simp [regexMeta] at this
    rcases List.mem_append.mp hmem with h | h
    · rcases List.mem_append.mp h with h | h
      · rcases List.mem_append.mp h with h | h
        · exact hfixed1 h
        · exact hpath h
      · exact hfixed2 h
    · exact hpath h
  have hnone : findLineStartMatch
      (compilePat (filePatternSource filePath.data)) diff.data = none := by
    rw [compilePat_filePatternSource filePath.data hmeta]
    unfold findLineStartMatch
    apply findFrom_eq_none
    intro u hu
    rw [patMatchesAt_map_lit]
    refine lss_no_prefix _ hnl diff.data true ?_ u hu
    intro l hl
    exact hlines l (by simpa using hl)
  unfold getDiffPositions
  dsimp only
  rw [hnone]

/-- Witness for C5 (amended): `c2Diff` only mentions `f`, so the
metacharacter-free path `src/main` gets the empty map. -/
theorem c5_amended_witness : getDiffPositions c2Diff "src/main" = [] :=
  c5_amended_no_header_empty_map c2Diff "src/main" (by decide) (by decide)

/-- C6: the enclosing `VariableDeclaration` of
`const double = (x) => x * 2;` carries the doc comment
`/** Doubles x. */` as a leading block comment whose text starts with
an asterisk — and the scanner emits the callable unit anyway, because
its check reads `path.parent.parent.leadingComments`, which is always
`undefined` (AST nodes have no `parent` field).  The claim that a
documented callable is never emitted fails for variable-bound
functions. -/
theorem c6_documented_binding_still_emitted :
    isDocComment c6Comment = true
    ∧ detectFunctionsAst c6Source c6Ast
        = [⟨"double", 24, "double = (x) => x * 2", "function", 2,
            "const double = (x) => x * 2;"⟩] := by
  decide

/-- C7 (amended): the run statistics count the suggestions assembled
and attempted — generated comment plus found diff position —
incremented before publication; they are identical whether the review
submission succeeds or fails, so a publish failure does not remove a
file's suggestions from the reported counts. -/
theorem c7_amended_counts_attempted (st : Stats) (env : FileEnv) :
    (processFile st { env with publishOk := true }).1
      = (processFile st { env with publishOk := false }).1
    ∧ (processFile st env).1.totalSuggestions
        = st.totalSuggestions + (processFile st env).2.1
    ∧ (processFile st env).1.suggestedFiles
        = st.suggestedFiles ++
            (if 0 < (processFile st env).2.1
             then [(env.path, (processFile st env).2.1)] else []) := by
  refine ⟨?_, ?_, ?_⟩
  · unfold processFile
    rw [detectFunctions_publishOk env true, detectFunctions_publishOk env false,
        buildSuggestion_publishOk env true, buildSuggestion_publishOk env false,
        publishOk_update_path env true, publishOk_update_path env false,
        publishOk_update_diffText env true, publishOk_update_diffText env false]
    dsimp only
    split
    · rfl
    · split <;> rfl
  · unfold processFile
    dsimp only
    split
    · simp
    · split <;> simp_all
  · unfold processFile
    dsimp only
    split
    · simp
    · split
      · simp_all
      · simp_all

/-- C7: counterexample to the claim as stated.  In the `math.js` run
`c7Env` the review submission fails (`publishOk = false`), so the
number of successfully published suggestions is zero — yet the
summary statistics report one suggestion in total and one for
`math.js`: the counters are bumped before publication and
`submitPRReview` swallows the rejection. -/
theorem c7_counterexample :
    c7Env.publishOk = false
    ∧ (processFile statsInit c7Env).1.totalSuggestions = 1
    ∧ (processFile statsInit c7Env).1.suggestedFiles = [("math.js", 1)] := by
  set_option maxRecDepth 10000 in decide

/-- A statistics record with zero in `totalFunctions` renders a
summary containing the literal line fragment
`Total functions analyzed: 0`. -/
theorem summary_zero_totalFunctions (st : Stats) (h : st.totalFunctions = 0) :
    "Total functions analyzed: 0".data <:+: summaryChars st := by
  refine ⟨"\n## Summary of JSDoc Suggestions\n\n📊 **Statistics**:\n- Total files processed: ".data
            ++ (Nat.repr st.totalFiles).data ++ "\n- ".data,
          summaryTail st, ?_⟩
  rw [summaryChars, h]
  have hrepr : "Total functions analyzed: 0".data
      = "Total functions analyzed: ".data ++ (Nat.repr 0).data := by decide
  rw [hrepr]

/-- C9: no operation of the run ever increments
`stats.totalFunctions` — the loop and every `processFile` branch
leave it at its initial 0 — so the generated summary always reports
`Total functions analyzed: 0`, whatever was scanned or suggested. -/
theorem c9_total_functions_always_zero (envs : List FileEnv) :
    (mainRun envs).totalFunctions = 0
    ∧ "Total functions analyzed: 0".data <:+: summaryChars (mainRun envs) := by
  have h0 : (mainRun envs).totalFunctions = 0 := by
    unfold mainRun
    rw [runFiles_totalFunctions]
    rfl
  exact ⟨h0, summary_zero_totalFunctions _ h0⟩

/-- C8: a file whose text fails to parse yields the empty sequence
together with the logged cause, contributes nothing to the
statistics, and does not abort the run — the loop over the remaining
files computes exactly what it would compute without the failing
file. -/
theorem c8_parse_failure_isolated (st : Stats) (env : FileEnv)
    (rest : List FileEnv) (msg : String)
    (hp : env.parse = Except.error msg) :
    detectFunctions env = ([], [detectErrorLog env.path msg])
    ∧ (processFile st env).1 = st
    ∧ (processFile st env).2.1 = 0
    ∧ runFiles st (env :: rest) = runFiles st rest := by
  have hdet : detectFunctions env = ([], [detectErrorLog env.path msg]) := by
    unfold detectFunctions
    rw [hp]
  refine ⟨hdet, ?_, ?_, ?_⟩
  · unfold processFile
    rw [hdet]
    rfl
  · unfold processFile
    rw [hdet]
    rfl
  · rw [runFiles, runFiles, List.foldl_cons]
    by_cases h : env.path.trim = ""
    · rw [if_pos h]
    · rw [if_neg h]
      have hdet2 : detectFunctions { env with path := env.path.trim }
          = ([], [detectErrorLog env.path.trim msg]) := by
        unfold detectFunctions
        rw [show ({ env with path := env.path.trim } : FileEnv).parse
              = env.parse from rfl, hp]
      have hps : (processFile st { env with path := env.path.trim }).1 = st := by
        unfold processFile
        rw [hdet2]
        rfl
      rw [hps]

/-- Witness for C8: the unparsable `broken.js` is skipped with a log
and the following `math.js` file is processed as if it came first. -/
theorem c8_witness :
    detectFunctions c8BadEnv
      = ([], [detectErrorLog c8BadEnv.path "Unexpected token (1:5)"])
    ∧ (processFile statsInit c8BadEnv).1 = statsInit
    ∧ (processFile statsInit c8BadEnv).2.1 = 0
    ∧ runFiles statsInit (c8BadEnv :: [c8GoodEnv]) = runFiles statsInit [c8GoodEnv] :=
  c8_parse_failure_isolated statsInit c8BadEnv [c8GoodEnv] "Unexpected token (1:5)" rfl

/-- C10: a hunk header of the short form `@@ -a +c @@` (no
comma-separated counts) does not match the source's header pattern,
so neither counter is reset — `leftLine`/`rightLine` keep their
previous values for the rest of the hunk — while the line still
consumes one diffPosition slot. -/
theorem c10_no_comma_header_ignored (st : WalkState) (da dc : List Char)
    (hane : da ≠ []) (had : ∀ c ∈ da, c.isDigit) (hcd : ∀ c ∈ dc, c.isDigit) :
    hunkSearch (hunkHeaderLineNC da dc) = none
    ∧ stepLine st (hunkHeaderLineNC da dc)
        = { st with currentPosition := st.currentPosition + 1 } := by
  have hn := hunkSearch_headerNC_none da dc hane had hcd
  exact ⟨hn, stepLine_hunkSearch_none st _ (atat_isPrefixOf _) hn⟩

/-- Witness for C10 at the concrete header `@@ -15 +7 @@`. -/
theorem c10_witness :
    hunkSearch (hunkHeaderLineNC ['1', '5'] ['7']) = none
    ∧ stepLine ⟨[(3, 1)], 4, 7, 9⟩ (hunkHeaderLineNC ['1', '5'] ['7'])
        = { (⟨[(3, 1)], 4, 7, 9⟩ : WalkState) with
            currentPosition := (⟨[(3, 1)], 4, 7, 9⟩ : WalkState).currentPosition + 1 } :=
  c10_no_comma_header_ignored ⟨[(3, 1)], 4, 7, 9⟩ ['1', '5'] ['7']
    (by decide) (by decide) (by decide)
